import Mathlib

/-
  Verification development for the `get-next-versions` tool.

  JavaScript strings are modelled as `List Char` (called `JStr` below); the
  string operations used by the source (`toLowerCase`, `includes`,
  `startsWith`, `trim`, `split`, `replace`) are embedded as functions on
  `List Char`.  `Char.toLower` models `toLocaleLowerCase`/`toLowerCase` and
  `Char.isWhitespace` models the JS whitespace class; both agree with the
  JS functions on the ASCII data this development exercises.  External
  collaborators (git subprocess calls) are modelled as explicit inputs: the
  changed-file list of a commit is carried on the commit record, and the
  current version of a package is an oracle argument.
-/

abbrev JStr := List Char

/-- Models `s.toLowerCase()` (and `toLocaleLowerCase`). -/
def lower (s : JStr) : JStr := s.map Char.toLower

/-- Models `s.includes(target)`. -/
def jsIncludes (s target : JStr) : Bool := decide (target <:+: s)

/-- Models `s.trim()`: drop leading and trailing whitespace. -/
def jsTrim (s : JStr) : JStr :=
  ((s.dropWhile Char.isWhitespace).reverse.dropWhile Char.isWhitespace).reverse

/-- Models `s.replace(/\\/g, "/")`: normalize path separators. -/
def normalizeSlashes (s : JStr) : JStr :=
  s.map (fun c => if c = '\\' then '/' else c)

/-- Models `s.replace("*", "")`: JS `replace` with a string pattern removes
only the first occurrence. -/
def removeFirstStar : JStr → JStr
  | [] => []
  | c :: rest => if c = '*' then rest else c :: removeFirstStar rest

/-- Models `s.split(".")`; `"".split(".")` is `[""]`. -/
def splitDot : JStr → List JStr
  | [] => [[]]
  | c :: rest =>
    if c = '.' then [] :: splitDot rest
    else
      match splitDot rest with
      | [] => [[c]]
      | p :: ps => (c :: p) :: ps

def digitsToNat (s : JStr) : Nat :=
  s.foldl (fun acc c => acc * 10 + (c.toNat - 48)) 0

/-- Models `Number(s)` restricted to the canonical decimal numerals that the
version triads of this tool exercise; every other input is treated as the
poisoned value (`NaN`), rendered `none`. -/
def jsNumberNat (s : JStr) : Option Nat :=
  if s ≠ [] ∧ s.all Char.isDigit then some (digitsToNat s) else none

/-- `NaN`/`undefined` propagate through `+ 1`. -/
def jsAdd1 : Option Nat → Option Nat
  | some n => some (n + 1)
  | none => none

/-- Template-literal rendering of a JS number (or `NaN`). -/
def numToChars : Option Nat → JStr
  | some n => (Nat.repr n).toList
  | none => "NaN".toList

/- ===== versions.ts ===== -/

inductive RelType
  | major
  | minor
  | patch
deriving DecidableEq

/-- Return shape of `isCommitAnyRelevantConvention` (versions.ts line 80). -/
structure Relevance where
  isRelevant : Bool
  type : Option RelType
deriving DecidableEq

def breakingChangeText : JStr := "breaking change".toList

def featText : JStr := "feat".toList

def fixText : JStr := "fix".toList

/-- Helper for the regex fragment `\([^)]+\)`: splits a char list at its
first closing parenthesis, returning the (possibly empty) run of
non-`)` characters before it and the remainder after it; `none` when no
closing parenthesis exists.  Because `[^)]` can never consume a `)`, the
regex group must close at exactly this first `)`. -/
def scopeSplit : JStr → Option (JStr × JStr)
  | [] => none
  | c :: rest =>
    if c = ')' then some ([], rest)
    else
      match scopeSplit rest with
      | some (p, q) => some (c :: p, q)
      | none => none

/-- The tail `(\([^)]+\))?!:` of the breaking-change regex, tested on the
text after the type word: either `!:` directly, or a parenthesized
non-empty scope followed by `!:`.  If the optional scope group starts
(`(` present) but cannot complete, the regex's fallback without the group
immediately fails on that same `(`, so this scan captures the
backtracking outcome exactly. -/
def breakingTail (r : JStr) : Bool :=
  ("!:".toList.isPrefixOf r) ||
  (match r with
   | '(' :: rest =>
     match scopeSplit rest with
     | some (content, after) =>
       decide (content ≠ []) && "!:".toList.isPrefixOf after
     | none => false
   | _ => false)

/-- Models the JS test `/^(feat|fix)(\([^)]+\))?!:/.test(s)`
(versions.ts line 85).  The alternation is deterministic: no string
starts with both `feat` and `fix`. -/
def testBreakingRegex (s : JStr) : Bool :=
  if featText.isPrefixOf s then breakingTail (s.drop 4)
  else if fixText.isPrefixOf s then breakingTail (s.drop 3)
  else false

/-- versions.ts line 80: `isCommitAnyRelevantConvention`. -/
def isCommitAnyRelevantConvention (commit : JStr) : Relevance :=
  let commitMessage := lower commit
  if jsIncludes commitMessage breakingChangeText || testBreakingRegex commitMessage then
    ⟨true, some RelType.major⟩
  else if featText.isPrefixOf commitMessage then ⟨true, some RelType.minor⟩
  else if fixText.isPrefixOf commitMessage then ⟨true, some RelType.patch⟩
  else ⟨false, none⟩

structure VersionChanges where
  major : Bool
  minor : Bool
  patch : Bool
deriving DecidableEq

/-- One iteration of the loop in `determineVersionChange`
(versions.ts lines 42-54). -/
def dvcStep (changes : VersionChanges) (commit : JStr) : VersionChanges :=
  let message := lower commit
  let relevant := isCommitAnyRelevantConvention message
  if relevant.isRelevant then
    if relevant.type = some RelType.major then { changes with major := true }
    else if relevant.type = some RelType.minor then { changes with minor := true }
    else if relevant.type = some RelType.patch then { changes with patch := true }
    else changes
  else changes

/-- versions.ts line 35: `determineVersionChange`. -/
def determineVersionChange (commits : List JStr) : VersionChanges :=
  commits.foldl dvcStep ⟨false, false, false⟩

/-- versions.ts line 130: `createVersion`.  The destructuring
`const [major, minor, patch] = currentVersion.split(".").map(Number)`
takes the first three split components (`undefined`, modelled `none`, when
missing). -/
def createVersion (currentVersion : JStr) (changes : VersionChanges) : JStr :=
  let parts := (splitDot currentVersion).map jsNumberNat
  let major := (parts.get? 0).getD none
  let minor := (parts.get? 1).getD none
  let patch := (parts.get? 2).getD none
  if changes.major then
    numToChars (jsAdd1 major) ++ ".0.0".toList
  else if changes.minor then
    numToChars major ++ ".".toList ++ numToChars (jsAdd1 minor) ++ ".0".toList
  else if changes.patch then
    numToChars major ++ ".".toList ++ numToChars minor ++ ".".toList ++ numToChars (jsAdd1 patch)
  else currentVersion

/- ===== commits.ts ===== -/

structure ParsedCommitInfo where
  type : JStr
  scope : JStr
  breaking : Bool
deriving DecidableEq

/-- The regex class `[a-z]` (ASCII only; JS regexes without flags are
code-unit based). -/
def isAsciiLower (c : Char) : Bool := decide ('a' ≤ c ∧ c ≤ 'z')

/-- Matches the tail `(?:\(([^)]+)\))?(!)?:` of the commit-header regex
against the text after the type word, returning the captured scope (empty
when the group is absent) and whether `!` is present.  When the text
starts with `(` but the scope group cannot complete, the regex's fallback
without the group fails on that same `(`, so the whole match fails. -/
def headerTail : JStr → Option (JStr × Bool)
  | '(' :: rest =>
    (match scopeSplit rest with
     | some (content, after) =>
       if content = [] then none
       else
         match after with
         | '!' :: ':' :: _ => some (content, true)
         | ':' :: _ => some (content, false)
         | _ => none
     | none => none)
  | '!' :: ':' :: _ => some ([], true)
  | ':' :: _ => some ([], false)
  | _ => none

/-- commits.ts (`parseCommitInfo`): applies
`/^([a-z]+)(?:\(([^)]+)\))?(!)?:/` to the raw message.  `([a-z]+)` is
greedy; shortening the run can never help, because the character after a
shortened run is a lowercase letter, which can start none of `(`, `!`,
`:`, so the maximal run is the only candidate. -/
def parseCommitInfo (message : JStr) : Option ParsedCommitInfo :=
  let ty := message.takeWhile isAsciiLower
  if ty = [] then none
  else
    match headerTail (message.dropWhile isAsciiLower) with
    | some (scope, breaking) => some ⟨ty, scope, breaking⟩
    | none => none

/- ===== helpers.ts ===== -/

/-- helpers.ts line 39: `checkPackageInScope` — trimmed, case-folded
string equality.  (A historical copy of this helper also short-circuits an
empty scope to `true`; the aggregation loop below reaches the same overall
verdicts with either copy because it tests the empty scope separately.) -/
def checkPackageInScope (scope pkgName : JStr) : Bool :=
  lower (jsTrim pkgName) == lower (jsTrim scope)

/- ===== config / data model ===== -/

inductive NonScopeBehavior
  | bump
  | ignore
deriving DecidableEq

/-- A configured package.  The git tag text is not needed by any claim:
the current version obtained from the last tag is modelled by an oracle
argument where required. -/
structure Package where
  name : JStr
  directory : JStr
  dependsOn : List JStr
deriving DecidableEq

/-- The loaded configuration; an absent `nonScopeBehavior` key is `none`. -/
structure Config where
  versionedPackages : List Package
  nonScopeBehavior : Option NonScopeBehavior
deriving DecidableEq

/-- One git log entry; `changedFiles` models the result of
`getChangedFilesInCommit(hash)` (the `git diff-tree` collaborator). -/
structure RawCommit where
  hash : JStr
  message : JStr
  changedFiles : List JStr
deriving DecidableEq

/-- An attributed commit (types.ts `CommitInfo`). -/
structure CommitInfo where
  hash : JStr
  message : JStr
  type : JStr
  breaking : Bool
  reasons : List JStr
deriving DecidableEq

def relTypeText : RelType → JStr
  | RelType.major => "major".toList
  | RelType.minor => "minor".toList
  | RelType.patch => "patch".toList

/-- The `addToList` closure of `checkVersions` (index.ts lines 134-142):
each call pushes a fresh record whose `reasons` list holds the single
given reason. -/
def addEntry (commit : RawCommit) (commitInfo : ParsedCommitInfo)
    (relevance : Relevance) (reason : JStr) : CommitInfo :=
  { hash := commit.hash
    message := commit.message
    type := match relevance.type with
            | some t => relTypeText t
            | none => commitInfo.type
    breaking := decide (relevance.type = some RelType.major) || commitInfo.breaking
    reasons := [reason] }

def majorReason : JStr := "Major version bump".toList

def scopeReason : JStr := "Changes in package scope".toList

def rootSelfReason : JStr := "Changes in scope".toList

/-- The apostrophe character, kept out of string literals. -/
def squote : Char := Char.ofNat 39

/-- Reason text `Changes in root (nonScopeBehavior is set to 'bump')`. -/
def bumpRootReason : JStr :=
  "Changes in root (nonScopeBehavior is set to ".toList
    ++ squote :: "bump".toList ++ [squote, ')']

def directReason (dir : JStr) : JStr := "Direct changes in ".toList ++ dir

def depReason (dep : JStr) : JStr :=
  "Affected by changes in dependent package ".toList ++ dep

/-- The directory test of index.ts lines 178-187: a changed file matches
when the normalized directory is `"."`, or the file starts with the
directory plus `/`, or equals the directory. -/
def fileInDirectory (dir file : JStr) : Bool :=
  let normalizedFile := normalizeSlashes file
  let normalizedDir := normalizeSlashes dir
  if normalizedDir = ['.'] then true
  else (normalizedDir ++ ['/']).isPrefixOf normalizedFile || normalizedFile == normalizedDir

def directoryMatch (pkg : Package) (changedFilesList : List JStr) : Bool :=
  changedFilesList.any (fileInDirectory pkg.directory)

/-- The per-file dependency test of index.ts lines 201-208: the pattern
with its first `*` removed, separators normalized, compared by
`startsWith(pattern + "/")` or equality. -/
def depFileMatch (dep file : JStr) : Bool :=
  let depPattern := removeFirstStar dep
  let normalizedFile := normalizeSlashes file
  let normalizedPattern := normalizeSlashes depPattern
  (normalizedPattern ++ ['/']).isPrefixOf normalizedFile || normalizedFile == normalizedPattern

/-- index.ts lines 202-210: `matchingChanges.length > 0` over the filter. -/
def dependencyMatches (dep : JStr) (changedFilesList : List JStr) : Bool :=
  decide (0 < (changedFilesList.filter (fun file => depFileMatch dep file)).length)

/-- index.ts line 160: `pkg.directory === "." ? "" : pkg.name`. -/
def packageScopeOf (pkg : Package) : JStr :=
  if pkg.directory = ['.'] then [] else pkg.name

/-- The commit-filtering loop of `checkVersions` (index.ts lines 112-256;
the later revision's loop body, lines 519-656, is identical).  The loop
is modelled as structural recursion over the commit list; the `break` in
the major branch ends the recursion, every `continue` recurses on the
tail.  The out-of-scope branch pushes one entry for a directory match and
one entry per matching `dependsOn` pattern, in that order. -/
def aggregateCommits (cfg : Config) (pkg : Package) : List RawCommit → List CommitInfo
  | [] => []
  | commit :: rest =>
    match parseCommitInfo commit.message with
    | none => aggregateCommits cfg pkg rest
    | some commitInfo =>
      let relevance := isCommitAnyRelevantConvention commit.message
      if relevance.isRelevant = false then aggregateCommits cfg pkg rest
      else if decide (relevance.type = some RelType.major) || commitInfo.breaking
              || commitInfo.type == "major".toList then
        [addEntry commit commitInfo relevance majorReason]
      else
        let packageScope := packageScopeOf pkg
        let packageIsRootScope : Bool := decide (packageScope = [])
        let isInScope := checkPackageInScope commitInfo.scope packageScope
        let isRootScope : Bool := decide (commitInfo.scope = [])
        if !isInScope && !isRootScope then
          let changedFilesList := commit.changedFiles
          let directPart : List CommitInfo :=
            if directoryMatch pkg changedFilesList then
              [addEntry commit commitInfo relevance (directReason pkg.directory)]
            else []
          let depPart : List CommitInfo :=
            (pkg.dependsOn.filter (fun dep => dependencyMatches dep changedFilesList)).map
              (fun dep => addEntry commit commitInfo relevance (depReason dep))
          (directPart ++ depPart) ++ aggregateCommits cfg pkg rest
        else if isInScope && !isRootScope then
          addEntry commit commitInfo relevance scopeReason :: aggregateCommits cfg pkg rest
        else
          let bumpRootScope :=
            packageIsRootScope || decide (cfg.nonScopeBehavior = some NonScopeBehavior.bump)
          if isRootScope && bumpRootScope then
            addEntry commit commitInfo relevance
                (if packageIsRootScope then rootSelfReason else bumpRootReason)
              :: aggregateCommits cfg pkg rest
          else aggregateCommits cfg pkg rest

/- ===== version updates and JSON output ===== -/

structure VersionUpdate where
  currentVersion : JStr
  nextVersion : JStr
  hasChanges : Bool
  changes : List CommitInfo
deriving DecidableEq

/-- One JSON output record (outputs.ts lines 41-48). -/
structure JsonEntry where
  currentVersion : JStr
  nextVersion : JStr
  hasChanges : Bool
deriving DecidableEq

/-- The `packageChanges` map after the main loop: `checkVersions` calls
`packageChanges.set(pkg, commitsForPackage)` for every configured package
(index.ts line 257), in configuration order. -/
def packageChangeListOf (cfg : Config) (commitsOf : Package → List RawCommit) :
    List (Package × List CommitInfo) :=
  cfg.versionedPackages.map (fun p => (p, aggregateCommits cfg p (commitsOf p)))

/-- Body of the `config.versionedPackages.forEach` of index.ts lines
673-698: look up the package's changes by name, resolve the next version,
and record a `VersionUpdate` only when `hasChanges` is true. -/
def vuStep (packageChangeList : List (Package × List CommitInfo))
    (currentVersionOf : Package → JStr)
    (versionUpdates : List (Package × VersionUpdate)) (pkg : Package) :
    List (Package × VersionUpdate) :=
  if packageChangeList.any (fun e => e.1.name == pkg.name) then
    match packageChangeList.find? (fun e => e.1.name == pkg.name) with
    | some e =>
      let changes := e.2
      let currentVersion := currentVersionOf pkg
      let versionChanges := determineVersionChange (changes.map CommitInfo.message)
      let nextVersion := createVersion currentVersion versionChanges
      let hasChanges := currentVersion != nextVersion
      if hasChanges then
        versionUpdates ++ [(pkg, ⟨currentVersion, nextVersion, hasChanges, changes⟩)]
      else versionUpdates
    | none => versionUpdates
  else versionUpdates

def buildVersionUpdates (cfg : Config) (commitsOf : Package → List RawCommit)
    (currentVersionOf : Package → JStr) : List (Package × VersionUpdate) :=
  cfg.versionedPackages.foldl (vuStep (packageChangeListOf cfg commitsOf) currentVersionOf) []

/-- outputs.ts lines 40-57 (`outputJSON`): the emitted JSON object holds
one key per entry of `versionUpdates`. -/
def outputJSON (versionUpdates : List (Package × VersionUpdate)) : List (JStr × JsonEntry) :=
  versionUpdates.map (fun e => (e.1.name, ⟨e.2.currentVersion, e.2.nextVersion, e.2.hasChanges⟩))

/-- The JSON-mode result of `checkVersions`: aggregation, version
resolution, then `outputJSON`. -/
def checkVersionsJson (cfg : Config) (commitsOf : Package → List RawCommit)
    (currentVersionOf : Package → JStr) : List (JStr × JsonEntry) :=
  outputJSON (buildVersionUpdates cfg commitsOf currentVersionOf)

/- ===== derived notions used by the claim statements ===== -/

/-- Componentwise disjunction of two change sets. -/
def vcOr (a b : VersionChanges) : VersionChanges :=
  ⟨a.major || b.major, a.minor || b.minor, a.patch || b.patch⟩

/-- The commit contributes the major flag in `determineVersionChange`. -/
def verdictMajor (commit : JStr) : Bool :=
  (isCommitAnyRelevantConvention (lower commit)).isRelevant
    && decide ((isCommitAnyRelevantConvention (lower commit)).type = some RelType.major)

/-- The commit contributes the minor flag in `determineVersionChange`. -/
def verdictMinor (commit : JStr) : Bool :=
  (isCommitAnyRelevantConvention (lower commit)).isRelevant
    && decide ((isCommitAnyRelevantConvention (lower commit)).type = some RelType.minor)

/-- The commit contributes the patch flag in `determineVersionChange`. -/
def verdictPatch (commit : JStr) : Bool :=
  (isCommitAnyRelevantConvention (lower commit)).isRelevant
    && decide ((isCommitAnyRelevantConvention (lower commit)).type = some RelType.patch)

/-- Backtracking scan for the spec-quoted regex tail `[^)]*\)?!:` after the
opening parenthesis: the tail matches iff, at some position inside the
leading run of non-`)` characters, the remainder starts with `!:` or
`)!:`. -/
def scanC6 : JStr → Bool
  | [] => false
  | c :: rest =>
    ("!:".toList.isPrefixOf (c :: rest)) || (")!:".toList.isPrefixOf (c :: rest))
      || (if c = ')' then false else scanC6 rest)

/-- Modelled from the spec: the regular expression
`^(feat|fix)\([^)]*\)?!:` quoted by the specification (testable property
list) — type word, a mandatory opening parenthesis, a possibly empty run
of non-`)` characters, an optional closing parenthesis, then `!:`.  This
is the comparison definition for claim C6; the code's own regex is
`testBreakingRegex` above. -/
def specClaimRegexC6 (s : JStr) : Bool :=
  let afterType : Option JStr :=
    if featText.isPrefixOf s then some (s.drop 4)
    else if fixText.isPrefixOf s then some (s.drop 3)
    else none
  match afterType with
  | none => false
  | some r =>
    match r with
    | '(' :: rest => scanC6 rest
    | _ => false

/-- The resolved next version of a package under commit source
`commitsOf` and current-version oracle `cv`. -/
def nextVersionOf (cfg : Config) (commitsOf : Package → List RawCommit)
    (cv : Package → JStr) (q : Package) : JStr :=
  createVersion (cv q)
    (determineVersionChange ((aggregateCommits cfg q (commitsOf q)).map CommitInfo.message))

/-- The record a single `forEach` round of the update loop appends, if
any (extracted body of `vuStep`). -/
def entryOpt (packageChangeList : List (Package × List CommitInfo))
    (currentVersionOf : Package → JStr) (pkg : Package) :
    Option (Package × VersionUpdate) :=
  if packageChangeList.any (fun e => e.1.name == pkg.name) then
    match packageChangeList.find? (fun e => e.1.name == pkg.name) with
    | some e =>
      let changes := e.2
      let currentVersion := currentVersionOf pkg
      let versionChanges := determineVersionChange (changes.map CommitInfo.message)
      let nextVersion := createVersion currentVersion versionChanges
      let hasChanges := currentVersion != nextVersion
      if hasChanges then some (pkg, ⟨currentVersion, nextVersion, hasChanges, changes⟩)
      else none
    | none => none
  else none

/- ===== concrete instances used by counterexamples and witnesses ===== -/

def pkgC1 : Package := ⟨"app".toList, "apps/app".toList, []⟩

def cfgC1 : Config := ⟨[pkgC1], some NonScopeBehavior.bump⟩

def commitC1major : RawCommit := ⟨"aa1".toList, "feat!: overhaul".toList, []⟩

def commitC1feat : RawCommit :=
  ⟨"aa2".toList, "feat(app): button".toList, ["apps/app/b.ts".toList]⟩

def pkgC2 : Package := ⟨"app".toList, "apps/app".toList, []⟩

def cfgC2 : Config := ⟨[pkgC2], some NonScopeBehavior.bump⟩

def pkgC2w : Package := ⟨"web".toList, "apps/web".toList, []⟩

def cfgC2w : Config := ⟨[pkgC2w], some NonScopeBehavior.bump⟩

def commitC2w : RawCommit :=
  ⟨"cw1".toList, "feat(web): landing page".toList, ["apps/web/a.ts".toList]⟩

def pkgC3 : Package := ⟨"docs".toList, "apps/docs".toList, ["packages/*".toList]⟩

def cfgC3 : Config := ⟨[pkgC3], some NonScopeBehavior.bump⟩

def commitC3 : RawCommit :=
  ⟨"c3".toList, "feat(ui): new button".toList, ["packages/ui/index.ts".toList]⟩

def pkgC7 : Package := ⟨"app".toList, "apps/app".toList, []⟩

def commitC7 : RawCommit := ⟨"c7".toList, "feat: add stuff".toList, []⟩

def pkgC9 : Package := ⟨"app".toList, "apps/web".toList, ["packages/ui".toList]⟩

def cfgC9 : Config := ⟨[pkgC9], some NonScopeBehavior.bump⟩

def commitC9 : RawCommit := ⟨"c9".toList, "fix(ui): spacing".toList,
  ["apps/web/Button.tsx".toList, "packages/ui/spacing.ts".toList]⟩

/- ===== helper lemmas ===== -/

theorem toLower_eq_rparen {c : Char} (h : Char.toLower c = ')') : c = ')' := by
  rw [Char.toLower] at h
  split at h
  · exfalso
    rename_i hrange
    have h2 := congrArg Char.toNat h
    have h3 : (Char.ofNat (c.toNat + 32)).toNat = c.toNat + 32 := by
      rw [Char.ofNat, dif_pos]
      · rfl
      · exact Or.inl (by omega)
    rw [h3] at h2
    have h4 : (')' : Char).toNat = 41 := by decide
    omega
  · exact h

theorem scopeSplit_lower (l : JStr) :
    scopeSplit (lower l) = (scopeSplit l).map (fun pq => (lower pq.1, lower pq.2)) := by
  induction l with
  | nil => rfl
  | cons c rest ih =>
    by_cases hc : c = ')'
    · subst hc
      simp [scopeSplit, lower]
    · have hc2 : Char.toLower c ≠ ')' := fun h => hc (toLower_eq_rparen h)
      show scopeSplit (Char.toLower c :: lower rest) = _
      simp only [scopeSplit, if_neg hc, if_neg hc2, ih]
      cases scopeSplit rest <;> simp [lower]

theorem isPrefixOf_lower {p l : JStr} (hfix : lower p = p) (h : p.isPrefixOf l = true) :
    p.isPrefixOf (lower l) = true := by
  rw [List.isPrefixOf_iff_prefix] at h ⊢
  obtain ⟨t, rfl⟩ := h
  refine ⟨lower t, ?_⟩
  have hsplit : lower (p ++ t) = p ++ lower t := by
    rw [lower, List.map_append, ← lower, ← lower, hfix]
  rw [hsplit]

theorem lower_append (a b : JStr) : lower (a ++ b) = lower a ++ lower b := by
  simp [lower]

/- ===== C3 ===== -/

/-- Claim C3 (code divergence): in the dependency-impact check, the
pattern `packages/*` is reduced to the literal `packages/`, and the test
then requires a changed file to start with `packages//` or to equal
`packages/`; consequently `packages/ui/index.ts` does NOT match (contrary
to the claim and to the README's documented meaning of `packages/*`),
`packagesx/index.ts` does not match either, and at the aggregation level a
commit whose only hit is via `packages/*` is not attributed at all.  A
star-free pattern such as `packages/ui` does match, showing the doubled
slash is specific to the wildcard form. -/
theorem dependsOn_star_pattern_never_matches :
    dependencyMatches "packages/*".toList ["packages/ui/index.ts".toList] = false
      ∧ dependencyMatches "packages/*".toList ["packagesx/index.ts".toList] = false
      ∧ dependencyMatches "packages/ui".toList ["packages/ui/index.ts".toList] = true
      ∧ aggregateCommits cfgC3 pkgC3 [commitC3] = [] := by decide

/- ===== C4 ===== -/

/-- Claim C4: for a current version whose dot-split form is a triad of
integer components, `createVersion` returns the incremented-major form
when `changes.major` is set (whatever the other two flags hold), else the
incremented-minor form, else the incremented-patch form, else the input
unchanged. -/
theorem createVersion_bump_rules (s sa sb sc : JStr) (a b c : Nat) (mi pa : Bool)
    (hsplit : splitDot s = [sa, sb, sc])
    (ha : jsNumberNat sa = some a) (hb : jsNumberNat sb = some b)
    (hc : jsNumberNat sc = some c) :
    createVersion s ⟨true, mi, pa⟩ = (Nat.repr (a + 1)).toList ++ ".0.0".toList
      ∧ createVersion s ⟨false, true, pa⟩
          = (Nat.repr a).toList ++ ".".toList ++ (Nat.repr (b + 1)).toList ++ ".0".toList
      ∧ createVersion s ⟨false, false, true⟩
          = (Nat.repr a).toList ++ ".".toList ++ (Nat.repr b).toList ++ ".".toList
              ++ (Nat.repr (c + 1)).toList
      ∧ createVersion s ⟨false, false, false⟩ = s := by
  unfold createVersion
  rw [hsplit]
  simp [ha, hb, hc, jsAdd1, numToChars]

/-- Witness for C4 at the spec's `1.2.3` examples. -/
theorem createVersion_bump_rules_witness :
    createVersion "1.2.3".toList ⟨true, true, true⟩ = "2.0.0".toList
      ∧ createVersion "1.2.3".toList ⟨false, true, true⟩ = "1.3.0".toList
      ∧ createVersion "1.2.3".toList ⟨false, false, true⟩ = "1.2.4".toList
      ∧ createVersion "1.2.3".toList ⟨false, false, false⟩ = "1.2.3".toList := by
  obtain ⟨h1, h2, h3, h4⟩ :=
    createVersion_bump_rules "1.2.3".toList "1".toList "2".toList "3".toList 1 2 3
      true true (by decide) (by decide) (by decide) (by decide)
  exact ⟨h1.trans (by decide), h2.trans (by decide), h3.trans (by decide), h4⟩

/- ===== C5 ===== -/

/-- Claim C5: any message containing `BREAKING CHANGE` in any letter case
(as a substring whose lowercase form is `breaking change`) is classified
major, whatever its leading type token. -/
theorem breaking_change_substring_major (msg sub : JStr) (hsub : sub <:+: msg)
    (hlow : lower sub = breakingChangeText) :
    isCommitAnyRelevantConvention msg = ⟨true, some RelType.major⟩ := by
  have hinc : jsIncludes (lower msg) breakingChangeText = true := by
    unfold jsIncludes
    apply decide_eq_true
    rw [← hlow]
    exact List.IsInfix.map _ hsub
  unfold isCommitAnyRelevantConvention
  simp [hinc]

/-- Witness for C5: a `docs:`-typed message carrying the marker in mixed
case. -/
theorem breaking_change_substring_major_witness :
    ("Breaking CHANGE".toList <:+: "docs: Breaking CHANGE of api".toList)
      ∧ isCommitAnyRelevantConvention "docs: Breaking CHANGE of api".toList
          = ⟨true, some RelType.major⟩ :=
  ⟨by decide,
   breaking_change_substring_major _ "Breaking CHANGE".toList (by decide) (by decide)⟩

/- ===== C7 ===== -/

/-- Claim C7 (code divergence): with `nonScopeBehavior` omitted from the
configuration (`none`), a relevant root-scoped commit is dropped for a
non-root package, because the code tests `config.nonScopeBehavior ===
"bump"`, which is false for the absent key; only an explicit `"bump"`
value attributes the commit with the root-bump reason.  This contradicts
the documented default (`types.ts` line 13, README) that the claim
restates. -/
theorem nonScopeBehavior_default_drops_root_commit :
    aggregateCommits ⟨[pkgC7], none⟩ pkgC7 [commitC7] = []
      ∧ aggregateCommits ⟨[pkgC7], some NonScopeBehavior.bump⟩ pkgC7 [commitC7]
          = [addEntry commitC7 ⟨"feat".toList, [], false⟩ ⟨true, some RelType.minor⟩
              bumpRootReason] := by decide

/- ===== C8 ===== -/

/-- Counterexample for C8 as stated: the package name `" "` is non-empty,
yet `checkPackageInScope "" " "` is true, because both sides trim to the
empty string. -/
theorem checkPackageInScope_blank_name_counterexample :
    checkPackageInScope [] " ".toList = true ∧ " ".toList ≠ ([] : JStr) := by decide

/-- Claim C8 (amended): `checkPackageInScope` is exactly trimmed,
case-folded equality; `UI`/`ui` and `" ui "`/`ui` match; and the empty
scope matches no package name whose trimmed form is non-empty (rather
than: no non-empty package name, which fails on whitespace-only names). -/
theorem checkPackageInScope_spec (scope pkgName pkg2 : JStr) (h2 : jsTrim pkg2 ≠ []) :
    (checkPackageInScope scope pkgName = true
        ↔ lower (jsTrim pkgName) = lower (jsTrim scope))
      ∧ checkPackageInScope "UI".toList "ui".toList = true
      ∧ checkPackageInScope " ui ".toList "ui".toList = true
      ∧ checkPackageInScope [] pkg2 = false := by
  refine ⟨?_, by decide, by decide, ?_⟩
  · unfold checkPackageInScope
    exact beq_iff_eq
  · have hne : lower (jsTrim pkg2) ≠ lower (jsTrim []) := by
      intro h
      apply h2
      have h0 : jsTrim ([] : JStr) = [] := rfl
      rw [h0] at h
      exact List.map_eq_nil_iff.mp h
    unfold checkPackageInScope
    exact beq_eq_false_iff_ne.mpr hne

/-- Witness for C8 at concrete inputs. -/
theorem checkPackageInScope_spec_witness :
    ((checkPackageInScope "UI".toList "ui".toList = true
        ↔ lower (jsTrim "ui".toList) = lower (jsTrim "UI".toList))
      ∧ checkPackageInScope "UI".toList "ui".toList = true
      ∧ checkPackageInScope " ui ".toList "ui".toList = true
      ∧ checkPackageInScope [] "app".toList = false) :=
  checkPackageInScope_spec "UI".toList "ui".toList "app".toList (by decide)

/- ===== C1 ===== -/

/-- Counterexample for C1 as stated: after a major commit the loop
`break`s, so a later commit that is attributed when processed on its own
(second conjunct) produces no entry when it follows a major commit (first
and third conjuncts). -/
theorem major_break_counterexample :
    aggregateCommits cfgC1 pkgC1 [commitC1major, commitC1feat]
        = [addEntry commitC1major ⟨"feat".toList, [], true⟩ ⟨true, some RelType.major⟩
            majorReason]
      ∧ aggregateCommits cfgC1 pkgC1 [commitC1feat]
          = [addEntry commitC1feat ⟨"feat".toList, "app".toList, false⟩
              ⟨true, some RelType.minor⟩ scopeReason]
      ∧ ∀ e ∈ aggregateCommits cfgC1 pkgC1 [commitC1major, commitC1feat],
          e.hash ≠ commitC1feat.hash := by decide

/-- Claim C1 (amended): a parseable, relevant commit whose relevance
verdict is major, or whose parsed header is breaking, or whose parsed type
is the literal word `major`, is attributed with reason `Major version
bump` and the aggregation loop then terminates for this package (the
`break` on index.ts line 156): the result is exactly that one entry, and
commits after it are not evaluated. -/
theorem aggregateCommits_major_stops (cfg : Config) (pkg : Package)
    (commit : RawCommit) (rest : List RawCommit) (commitInfo : ParsedCommitInfo)
    (hparse : parseCommitInfo commit.message = some commitInfo)
    (hrel : (isCommitAnyRelevantConvention commit.message).isRelevant = true)
    (hmaj : (isCommitAnyRelevantConvention commit.message).type = some RelType.major
        ∨ commitInfo.breaking = true ∨ commitInfo.type = "major".toList) :
    aggregateCommits cfg pkg (commit :: rest)
      = [addEntry commit commitInfo (isCommitAnyRelevantConvention commit.message)
          majorReason] := by
  simp only [aggregateCommits, hparse]
  rcases hmaj with h | h | h <;> simp [hrel, h]

/-- Witness for C1 (amended) at a concrete two-commit input. -/
theorem aggregateCommits_major_stops_witness :
    aggregateCommits cfgC1 pkgC1 [commitC1major, commitC1feat]
      = [addEntry commitC1major ⟨"feat".toList, [], true⟩
          (isCommitAnyRelevantConvention commitC1major.message) majorReason] :=
  aggregateCommits_major_stops cfgC1 pkgC1 commitC1major [commitC1feat]
    ⟨"feat".toList, [], true⟩ (by decide) (by decide) (Or.inl (by decide))

/- ===== C9 ===== -/

/-- Counterexample for C9 as stated: a non-major out-of-scope commit whose
files both lie under the package directory and match the single
`dependsOn` pattern is attributed TWICE, as two entries each carrying one
reason, not once with a two-reason list. -/
theorem dual_reason_two_entries_counterexample :
    aggregateCommits cfgC9 pkgC9 [commitC9]
        = [addEntry commitC9 ⟨"fix".toList, "ui".toList, false⟩ ⟨true, some RelType.patch⟩
            (directReason "apps/web".toList),
           addEntry commitC9 ⟨"fix".toList, "ui".toList, false⟩ ⟨true, some RelType.patch⟩
            (depReason "packages/ui".toList)]
      ∧ ∀ e ∈ aggregateCommits cfgC9 pkgC9 [commitC9], e.reasons.length = 1 := by decide

/-- Claim C9 (amended): for a parseable, relevant, non-major commit whose
scope is neither the package's effective scope nor empty, if its files lie
under the package directory and match the package's single `dependsOn`
pattern, the commit is attributed once per reason: first an entry whose
reasons list is exactly the direct-changes reason, then an entry whose
reasons list is exactly the dependency reason. -/
theorem aggregateCommits_direct_and_dependency (cfg : Config) (pkg : Package)
    (commit : RawCommit) (rest : List RawCommit) (commitInfo : ParsedCommitInfo)
    (dep : JStr)
    (hparse : parseCommitInfo commit.message = some commitInfo)
    (hrel : (isCommitAnyRelevantConvention commit.message).isRelevant = true)
    (hm1 : (isCommitAnyRelevantConvention commit.message).type ≠ some RelType.major)
    (hm2 : commitInfo.breaking = false)
    (hm3 : commitInfo.type ≠ "major".toList)
    (hscope : checkPackageInScope commitInfo.scope (packageScopeOf pkg) = false)
    (hroot : commitInfo.scope ≠ [])
    (hdir : directoryMatch pkg commit.changedFiles = true)
    (hdeps : pkg.dependsOn = [dep])
    (hdep : dependencyMatches dep commit.changedFiles = true) :
    aggregateCommits cfg pkg (commit :: rest)
      = addEntry commit commitInfo (isCommitAnyRelevantConvention commit.message)
            (directReason pkg.directory)
          :: addEntry commit commitInfo (isCommitAnyRelevantConvention commit.message)
            (depReason dep)
          :: aggregateCommits cfg pkg rest := by
  have hm3l : commitInfo.type ≠ ['m', 'a', 'j', 'o', 'r'] := hm3
  simp only [aggregateCommits, hparse]
  simp [hrel, hm1, hm2, hm3l, hscope, hroot, hdir, hdeps, hdep]

/-- Witness for C9 (amended) at the concrete dual-match commit. -/
theorem aggregateCommits_direct_and_dependency_witness :
    aggregateCommits cfgC9 pkgC9 [commitC9]
      = addEntry commitC9 ⟨"fix".toList, "ui".toList, false⟩
            (isCommitAnyRelevantConvention commitC9.message)
            (directReason pkgC9.directory)
          :: addEntry commitC9 ⟨"fix".toList, "ui".toList, false⟩
            (isCommitAnyRelevantConvention commitC9.message)
            (depReason "packages/ui".toList)
          :: aggregateCommits cfgC9 pkgC9 [] :=
  aggregateCommits_direct_and_dependency cfgC9 pkgC9 commitC9 []
    ⟨"fix".toList, "ui".toList, false⟩ "packages/ui".toList
    (by decide) (by decide) (by decide) (by decide) (by decide) (by decide) (by decide)
    (by decide) (by decide) (by decide)

/- ===== C6 lemmas ===== -/

theorem lower_drop (l : JStr) (n : Nat) : (lower l).drop n = lower (l.drop n) := by
  simp [lower]

theorem breakingTail_lower {r : JStr} (h : breakingTail r = true) :
    breakingTail (lower r) = true := by
  unfold breakingTail at h ⊢
  rw [Bool.or_eq_true] at h ⊢
  rcases h with h1 | h1
  · exact Or.inl (isPrefixOf_lower (by decide) h1)
  · refine Or.inr ?_
    split at h1
    next rest =>
      have hlr : lower ('(' :: rest) = '(' :: lower rest := by
        show Char.toLower '(' :: lower rest = '(' :: lower rest
        rw [show Char.toLower '(' = '(' from by decide]
      rw [hlr]
      show (match scopeSplit (lower rest) with
            | some (content, after) =>
              decide (content ≠ []) && "!:".toList.isPrefixOf after
            | none => false) = true
      rw [scopeSplit_lower]
      split at h1
      next content after heq =>
        rw [heq]
        rw [Bool.and_eq_true] at h1
        rcases h1 with ⟨hcne, hpre⟩
        have hcne2 : lower content ≠ [] := by
          intro hx
          exact (decide_eq_true_eq.mp hcne) (List.map_eq_nil_iff.mp hx)
        have hfin : ['!', ':'] <+: lower after :=
          List.isPrefixOf_iff_prefix.mp (isPrefixOf_lower (by decide) hpre)
        simp [hcne2, hfin]
      next heq => simp at h1
    next => simp at h1

theorem testBreakingRegex_lower {msg : JStr} (h : testBreakingRegex msg = true) :
    testBreakingRegex (lower msg) = true := by
  unfold testBreakingRegex at h ⊢
  by_cases hfeat : featText.isPrefixOf msg = true
  · rw [if_pos hfeat] at h
    rw [if_pos (isPrefixOf_lower (by decide) hfeat), lower_drop]
    exact breakingTail_lower h
  · rw [if_neg hfeat] at h
    by_cases hfix : fixText.isPrefixOf msg = true
    · rw [if_pos hfix] at h
      obtain ⟨t, rfl⟩ := List.isPrefixOf_iff_prefix.mp hfix
      have hsplit : lower (fixText ++ t) = fixText ++ lower t := by
        rw [lower_append, show lower fixText = fixText from by decide]
      rw [hsplit]
      have hfeat2 : featText.isPrefixOf (fixText ++ lower t) = false := rfl
      have hfix2 : fixText.isPrefixOf (fixText ++ lower t) = true :=
        List.isPrefixOf_iff_prefix.mpr ⟨lower t, rfl⟩
      rw [if_neg (by simp [hfeat2]), if_pos hfix2]
      have hdrop : (fixText ++ lower t).drop 3 = lower ((fixText ++ t).drop 3) := by
        rw [← hsplit, lower_drop]
      rw [hdrop]
      exact breakingTail_lower h
    · rw [if_neg hfix] at h
      simp at h

/- ===== C6 ===== -/

/-- Counterexample for C6 as stated: `feat()!: drop legacy api` matches
the spec-quoted regex `^(feat|fix)\([^)]*\)?!:` (empty scope allowed,
closing parenthesis optional), yet the classifier returns minor, because
the code's regex `^(feat|fix)(\([^)]+\))?!:` demands a non-empty closed
scope and falls through to the `feat` starts-with test. -/
theorem spec_regex_minor_counterexample :
    specClaimRegexC6 "feat()!: drop legacy api".toList = true
      ∧ isCommitAnyRelevantConvention "feat()!: drop legacy api".toList
          = ⟨true, some RelType.minor⟩ := by decide

/-- Claim C6 (amended): every message matching the regex the code
actually uses, `^(feat|fix)(\([^)]+\))?!:` (non-empty scope, closing
parenthesis required), is classified major. -/
theorem source_breaking_regex_major (msg : JStr) (h : testBreakingRegex msg = true) :
    isCommitAnyRelevantConvention msg = ⟨true, some RelType.major⟩ := by
  have h2 := testBreakingRegex_lower h
  unfold isCommitAnyRelevantConvention
  simp [h2]

/-- Witness for C6 (amended). -/
theorem source_breaking_regex_major_witness :
    testBreakingRegex "fix(core)!: rework".toList = true
      ∧ isCommitAnyRelevantConvention "fix(core)!: rework".toList
          = ⟨true, some RelType.major⟩ :=
  ⟨by decide, source_breaking_regex_major _ (by decide)⟩

/- ===== C10 lemmas ===== -/

theorem dvcStep_eq (ch : VersionChanges) (commit : JStr) :
    dvcStep ch commit
      = ⟨ch.major || verdictMajor commit, ch.minor || verdictMinor commit,
         ch.patch || verdictPatch commit⟩ := by
  unfold dvcStep verdictMajor verdictMinor verdictPatch
  rcases hr : isCommitAnyRelevantConvention (lower commit) with ⟨ir, ty⟩
  simp only [hr]
  cases ir
  · simp
  · rcases ty with _ | t
    · simp
    · cases t <;> simp

theorem determineVersionChange_foldl (l : List JStr) (ch : VersionChanges) :
    l.foldl dvcStep ch
      = ⟨ch.major || l.any verdictMajor, ch.minor || l.any verdictMinor,
         ch.patch || l.any verdictPatch⟩ := by
  induction l generalizing ch with
  | nil => cases ch; simp
  | cons c t ih => rw [List.foldl_cons, dvcStep_eq, ih]; simp [Bool.or_assoc]

theorem any_eq_of_perm {l₁ l₂ : List JStr} (h : l₁.Perm l₂) (f : JStr → Bool) :
    l₁.any f = l₂.any f := by
  rw [Bool.eq_iff_iff]
  simp only [List.any_eq_true]
  exact ⟨fun ⟨x, hx, hf⟩ => ⟨x, h.mem_iff.mp hx, hf⟩,
         fun ⟨x, hx, hf⟩ => ⟨x, h.mem_iff.mpr hx, hf⟩⟩

/- ===== C10 ===== -/

/-- Claim C10: `determineVersionChange` of a concatenation is the
componentwise disjunction of the parts; the result is invariant under
permutation of the commit list; and appending further commits never turns
any flag from true to false. -/
theorem determineVersionChange_or_perm_monotone (l1 l2 l3 : List JStr)
    (hperm : l1.Perm l3) :
    determineVersionChange (l1 ++ l2)
        = vcOr (determineVersionChange l1) (determineVersionChange l2)
      ∧ determineVersionChange l1 = determineVersionChange l3
      ∧ ((determineVersionChange l1).major = true
          → (determineVersionChange (l1 ++ l2)).major = true)
      ∧ ((determineVersionChange l1).minor = true
          → (determineVersionChange (l1 ++ l2)).minor = true)
      ∧ ((determineVersionChange l1).patch = true
          → (determineVersionChange (l1 ++ l2)).patch = true) := by
  refine ⟨?_, ?_, ?_, ?_, ?_⟩
  · simp only [determineVersionChange, determineVersionChange_foldl,
      Bool.false_or, List.any_append]
    rfl
  · simp only [determineVersionChange, determineVersionChange_foldl, Bool.false_or]
    rw [any_eq_of_perm hperm, any_eq_of_perm hperm, any_eq_of_perm hperm]
  · simp only [determineVersionChange, determineVersionChange_foldl,
      Bool.false_or, List.any_append]
    intro h; rw [h, Bool.true_or]
  · simp only [determineVersionChange, determineVersionChange_foldl,
      Bool.false_or, List.any_append]
    intro h; rw [h, Bool.true_or]
  · simp only [determineVersionChange, determineVersionChange_foldl,
      Bool.false_or, List.any_append]
    intro h; rw [h, Bool.true_or]

/-- Witness for C10 at concrete lists (the third list is a transposition
of the first). -/
theorem determineVersionChange_or_perm_monotone_witness :
    determineVersionChange (["feat: a".toList, "fix: b".toList] ++ ["chore: c".toList])
        = vcOr (determineVersionChange ["feat: a".toList, "fix: b".toList])
            (determineVersionChange ["chore: c".toList])
      ∧ determineVersionChange ["feat: a".toList, "fix: b".toList]
          = determineVersionChange ["fix: b".toList, "feat: a".toList]
      ∧ ((determineVersionChange ["feat: a".toList, "fix: b".toList]).major = true
          → (determineVersionChange
              (["feat: a".toList, "fix: b".toList] ++ ["chore: c".toList])).major = true)
      ∧ ((determineVersionChange ["feat: a".toList, "fix: b".toList]).minor = true
          → (determineVersionChange
              (["feat: a".toList, "fix: b".toList] ++ ["chore: c".toList])).minor = true)
      ∧ ((determineVersionChange ["feat: a".toList, "fix: b".toList]).patch = true
          → (determineVersionChange
              (["feat: a".toList, "fix: b".toList] ++ ["chore: c".toList])).patch = true) :=
  determineVersionChange_or_perm_monotone ["feat: a".toList, "fix: b".toList]
    ["chore: c".toList] ["fix: b".toList, "feat: a".toList] (by decide)

/- ===== C2 lemmas ===== -/

theorem vuStep_eq (pcl : List (Package × List CommitInfo)) (cv : Package → JStr)
    (acc : List (Package × VersionUpdate)) (pkg : Package) :
    vuStep pcl cv acc pkg = acc ++ (entryOpt pcl cv pkg).toList := by
  simp only [vuStep, entryOpt]
  split
  · split
    · split
      · simp
      · simp
    · simp
  · simp

theorem foldl_vuStep (pcl : List (Package × List CommitInfo)) (cv : Package → JStr)
    (l : List Package) (init : List (Package × VersionUpdate)) :
    l.foldl (vuStep pcl cv) init = init ++ l.filterMap (entryOpt pcl cv) := by
  induction l generalizing init with
  | nil => simp
  | cons p t ih =>
    rw [List.foldl_cons, vuStep_eq, ih, List.filterMap_cons]
    cases entryOpt pcl cv p <;> simp

theorem buildVersionUpdates_eq (cfg : Config) (commitsOf : Package → List RawCommit)
    (cv : Package → JStr) :
    buildVersionUpdates cfg commitsOf cv
      = cfg.versionedPackages.filterMap
          (entryOpt (packageChangeListOf cfg commitsOf) cv) := by
  unfold buildVersionUpdates
  rw [foldl_vuStep]
  simp

theorem find_changeList (pkgs : List Package) (A : Package → List CommitInfo)
    (p : Package) (hnd : (pkgs.map Package.name).Nodup) (hp : p ∈ pkgs) :
    (pkgs.map (fun q => (q, A q))).find? (fun e => e.1.name == p.name)
      = some (p, A p) := by
  induction pkgs with
  | nil => cases hp
  | cons q t ih =>
    rw [List.map_cons, List.nodup_cons] at hnd
    rw [List.map_cons]
    by_cases hqp : (q.name == p.name) = true
    · rcases List.mem_cons.mp hp with rfl | hpt
      · rw [List.find?_cons, hqp]
      · exfalso
        have hqname : q.name = p.name := by simpa using hqp
        have hmem : p.name ∈ t.map Package.name := List.mem_map_of_mem _ hpt
        exact hnd.1 (hqname ▸ hmem)
    · have hpt : p ∈ t := by
        rcases List.mem_cons.mp hp with rfl | hpt
        · exact absurd (by simp) hqp
        · exact hpt
      have hqpf : (q.name == p.name) = false := Bool.eq_false_iff.mpr hqp
      rw [List.find?_cons, hqpf]
      exact ih hnd.2 hpt

theorem entryOpt_name (pcl : List (Package × List CommitInfo)) (cv : Package → JStr)
    (pkg : Package) (u : Package × VersionUpdate)
    (h : entryOpt pcl cv pkg = some u) : u.1 = pkg := by
  simp only [entryOpt] at h
  split at h
  · split at h
    · split at h
      · injection h with h2
        rw [← h2]
      · cases h
    · cases h
  · cases h

theorem entryOpt_of_mem (cfg : Config) (commitsOf : Package → List RawCommit)
    (cv : Package → JStr) (q : Package)
    (hnd : (cfg.versionedPackages.map Package.name).Nodup)
    (hq : q ∈ cfg.versionedPackages) :
    entryOpt (packageChangeListOf cfg commitsOf) cv q
      = if cv q ≠ nextVersionOf cfg commitsOf cv q then
          some (q, ⟨cv q, nextVersionOf cfg commitsOf cv q, true,
            aggregateCommits cfg q (commitsOf q)⟩)
        else none := by
  unfold entryOpt packageChangeListOf
  have hany : (cfg.versionedPackages.map
      (fun p => (p, aggregateCommits cfg p (commitsOf p)))).any
        (fun e => e.1.name == q.name) = true := by
    rw [List.any_eq_true]
    exact ⟨(q, aggregateCommits cfg q (commitsOf q)),
      List.mem_map_of_mem _ hq, by simp⟩
  rw [if_pos hany, find_changeList _ _ _ hnd hq]
  by_cases hne : cv q ≠ nextVersionOf cfg commitsOf cv q
  · rw [if_pos hne]
    have hbne : (cv q != nextVersionOf cfg commitsOf cv q) = true := bne_iff_ne.mpr hne
    simp only [nextVersionOf] at hbne
    simp [hbne, nextVersionOf]
  · rw [if_neg hne]
    rw [not_not] at hne
    have hbne : (cv q != nextVersionOf cfg commitsOf cv q) = false := by
      rw [bne_eq_false_iff_eq]
      exact hne
    simp only [nextVersionOf] at hbne
    simp [hbne]

/- ===== C2 ===== -/

/-- Counterexample for C2 as stated: with one configured package and no
commits, the JSON-mode output object is empty — the configured package
gets no entry at all (rather than an entry with `hasChanges: false`),
because the update loop records a `VersionUpdate` only when `hasChanges`
and `outputJSON` iterates `versionUpdates` alone. -/
theorem json_missing_package_counterexample :
    checkVersionsJson cfgC2 (fun _ => []) (fun _ => "1.0.0".toList) = []
      ∧ pkgC2 ∈ cfgC2.versionedPackages := by decide

/-- Claim C2 (amended): under distinct package names, the JSON output
object holds an entry keyed by a configured package's name exactly when
the package's resolved next version differs from its current version; in
particular a package with no attributed commits does not appear. -/
theorem jsonOutput_entry_iff_version_changed (cfg : Config)
    (commitsOf : Package → List RawCommit) (cv : Package → JStr) (p : Package)
    (hnd : (cfg.versionedPackages.map Package.name).Nodup)
    (hp : p ∈ cfg.versionedPackages) :
    ((∃ e ∈ checkVersionsJson cfg commitsOf cv, e.1 = p.name)
        ↔ cv p ≠ nextVersionOf cfg commitsOf cv p)
      ∧ (aggregateCommits cfg p (commitsOf p) = []
          → ¬ ∃ e ∈ checkVersionsJson cfg commitsOf cv, e.1 = p.name) := by
  have hmain : (∃ e ∈ checkVersionsJson cfg commitsOf cv, e.1 = p.name)
      ↔ cv p ≠ nextVersionOf cfg commitsOf cv p := by
    unfold checkVersionsJson outputJSON
    rw [buildVersionUpdates_eq]
    constructor
    · rintro ⟨e, he, hkey⟩
      rw [List.mem_map] at he
      obtain ⟨u, hu, rfl⟩ := he
      rw [List.mem_filterMap] at hu
      obtain ⟨q, hq, hque⟩ := hu
      have huq : u.1 = q := entryOpt_name _ _ _ _ hque
      have hqname : q.name = p.name := by
        rw [← huq]
        exact hkey
      have hqp : q = p := List.inj_on_of_nodup_map hnd hq hp hqname
      subst hqp
      intro heq
      rw [entryOpt_of_mem cfg commitsOf cv q hnd hq,
        if_neg (not_not_intro heq)] at hque
      cases hque
    · intro hne
      refine ⟨(p.name, ⟨cv p, nextVersionOf cfg commitsOf cv p, true⟩), ?_, rfl⟩
      rw [List.mem_map]
      refine ⟨(p, ⟨cv p, nextVersionOf cfg commitsOf cv p, true,
        aggregateCommits cfg p (commitsOf p)⟩), ?_, rfl⟩
      rw [List.mem_filterMap]
      exact ⟨p, hp, by rw [entryOpt_of_mem cfg commitsOf cv p hnd hp, if_pos hne]⟩
  refine ⟨hmain, ?_⟩
  intro hempty hex
  apply hmain.mp hex
  unfold nextVersionOf
  rw [hempty]
  rfl

/-- Witness for C2 (amended): one configured package with one in-scope
feature commit. -/
theorem jsonOutput_entry_iff_version_changed_witness :
    ((∃ e ∈ checkVersionsJson cfgC2w (fun _ => [commitC2w]) (fun _ => "1.0.0".toList),
        e.1 = pkgC2w.name)
      ↔ "1.0.0".toList ≠ nextVersionOf cfgC2w (fun _ => [commitC2w])
          (fun _ => "1.0.0".toList) pkgC2w)
    ∧ (aggregateCommits cfgC2w pkgC2w [commitC2w] = []
        → ¬ ∃ e ∈ checkVersionsJson cfgC2w (fun _ => [commitC2w])
            (fun _ => "1.0.0".toList), e.1 = pkgC2w.name) :=
  jsonOutput_entry_iff_version_changed cfgC2w (fun _ => [commitC2w])
    (fun _ => "1.0.0".toList) pkgC2w (by decide) (by decide)
